import Mathlib

/-!
Verification development for the PR-generation pipeline
(`app/prgen`: `context_parsing.py`, `repo_context.py`, `ai_integration.py`,
`pipeline.py`, `prompt_builder.py`).

The Python code is shallowly embedded: strings are modelled as `String`
(with most computation on their underlying `List Char`), Python `dict`s as
ordered association lists, raised exceptions as `Option`/`Except`, and the
ambient environment / network / language-model capability as explicit
function parameters.

`textwrap.shorten` (used by `repo_context.gather_candidate_files`,
`ai_integration.summarize_text_with_gemini` and the final trim pass of
`pipeline.gather_external_context`, always with `placeholder = "\n…\n"`)
is modelled faithfully at whitespace-word granularity:
it first collapses all whitespace runs to single spaces and strips the
ends (`' '.join(text.split())`); if the collapsed text fits in `width` it
is returned unchanged; otherwise the longest word prefix `p` (joined by
single spaces) with `|p| + |placeholder| ≤ width` is returned followed by
the placeholder; if no word fits, `placeholder.lstrip()` (here `"…\n"`,
two characters) is returned.  CPython raises `ValueError` whenever
`width < len(placeholder.lstrip()) = 2` (the check happens before the text
is examined), modelled by returning `none`.  CPython's additional chunking
of words at hyphens (`break_on_hyphens`) is not modelled; no property below
depends on truncation boundaries inside hyphenated words.
-/

namespace PRGen

/-- Python whitespace test used by `str.split`, `str.strip` and `textwrap`. -/
def isPyWs (c : Char) : Bool := c.isWhitespace

/-- Helper for `pyWords`: `acc` holds the reversed current word. -/
def pyWordsAux : List Char → List Char → List (List Char)
  | [], acc => if acc.isEmpty then [] else [acc.reverse]
  | c :: cs, acc =>
    if isPyWs c then
      if acc.isEmpty then pyWordsAux cs [] else acc.reverse :: pyWordsAux cs []
    else pyWordsAux cs (c :: acc)

/-- Python `text.split()`: maximal runs of non-whitespace characters. -/
def pyWords (l : List Char) : List (List Char) := pyWordsAux l []

/-- Python `' '.join(words)`. -/
def joinWords : List (List Char) → List Char
  | [] => []
  | [w] => w
  | w :: ws => w ++ ' ' :: joinWords ws

/-- Python `str.strip()` on a character list. -/
def pyStripL (l : List Char) : List Char :=
  ((l.dropWhile isPyWs).reverse.dropWhile isPyWs).reverse

/-- Python `str.strip()`. -/
def pyStrip (s : String) : String := String.mk (pyStripL s.data)

/-- The `placeholder="\n…\n"` passed to every `textwrap.shorten` call in the code. -/
def placeholderL : List Char := ['\n', '…', '\n']

/-- Greedy extension step of the truncation branch of `textwrap.shorten`:
starting from a kept word prefix `acc`, keep appending the following words
while the joined text still leaves room for the placeholder. -/
def shortenGo (width : Nat) (acc : List Char) : List (List Char) → List Char
  | [] => acc
  | w :: ws =>
    if acc.length + 1 + w.length + 3 ≤ width then
      shortenGo width (acc ++ ' ' :: w) ws
    else acc

/-- Truncation branch of `textwrap.shorten`: longest nonempty word prefix
whose joined length plus the placeholder length fits in `width`
(`none` when not even the first word fits). -/
def shortenTrunc (width : Nat) : List (List Char) → Option (List Char)
  | [] => none
  | w :: ws => if w.length + 3 ≤ width then some (shortenGo width w ws) else none

/-- Model of `textwrap.shorten(text, width, placeholder="\n…\n")` on
character lists; `none` models the `ValueError` CPython raises when
`width < 2`. -/
def pyShortenL (l : List Char) (width : Nat) : Option (List Char) :=
  if width < 2 then none
  else
    let ws := pyWords l
    let collapsed := joinWords ws
    if collapsed.length ≤ width then some collapsed
    else
      match shortenTrunc width ws with
      | some p => some (p ++ placeholderL)
      | none => some ['…', '\n']

/-- Model of `textwrap.shorten(text, width, placeholder="\n…\n")`. -/
def pyShorten (s : String) (width : Nat) : Option String :=
  (pyShortenL s.data width).map String.mk

/-! Basic properties of the `textwrap.shorten` model. -/

theorem shortenGo_length (width : Nat) :
    ∀ (ws : List (List Char)) (acc : List Char), acc.length + 3 ≤ width →
      (shortenGo width acc ws).length + 3 ≤ width := by
  intro ws
  induction ws with
  | nil => intro acc h; simpa [shortenGo] using h
  | cons w ws ih =>
    intro acc h
    by_cases hfit : acc.length + 1 + w.length + 3 ≤ width
    · simp only [shortenGo, hfit, if_true]
      apply ih
      simp [List.length_append]
      omega
    · simpa [shortenGo, hfit] using h

theorem shortenTrunc_length (width : Nat) (ws : List (List Char)) (p : List Char)
    (h : shortenTrunc width ws = some p) : p.length + 3 ≤ width := by
  cases ws with
  | nil => simp [shortenTrunc] at h
  | cons w ws =>
    by_cases hfit : w.length + 3 ≤ width
    · simp only [shortenTrunc, hfit, if_true, Option.some.injEq] at h
      subst h
      exact shortenGo_length width ws w hfit
    · simp [shortenTrunc, hfit] at h

/-- Whenever the modelled `shorten` succeeds, the result fits in `width`. -/
theorem pyShortenL_length (l : List Char) (width : Nat) (t : List Char)
    (h : pyShortenL l width = some t) : t.length ≤ width := by
  unfold pyShortenL at h
  by_cases hw : width < 2
  · simp [hw] at h
  · simp only [hw, if_false] at h
    by_cases hfit : (joinWords (pyWords l)).length ≤ width
    · simp only [hfit, if_true, Option.some.injEq] at h
      subst h; exact hfit
    · simp only [hfit, if_false] at h
      rcases htr : shortenTrunc width (pyWords l) with _ | p
      · rw [htr] at h
        simp only [Option.some.injEq] at h
        subst h
        simp only [List.length_cons, List.length_nil]
        omega
      · rw [htr] at h
        simp only [Option.some.injEq] at h
        subst h
        have := shortenTrunc_length width (pyWords l) p htr
        simp only [List.length_append, placeholderL, List.length_cons, List.length_nil]
        omega

/-- The modelled `shorten` succeeds exactly when `width ≥ 2`
(for `width < 2` CPython raises `ValueError` before looking at the text). -/
theorem pyShortenL_isSome (l : List Char) (width : Nat) (h : 2 ≤ width) :
    ∃ t, pyShortenL l width = some t := by
  unfold pyShortenL
  have hw : ¬ width < 2 := by omega
  simp only [hw, if_false]
  by_cases hfit : (joinWords (pyWords l)).length ≤ width
  · exact ⟨joinWords (pyWords l), by simp [hfit]⟩
  · rcases htr : shortenTrunc width (pyWords l) with _ | p
    · exact ⟨['…', '\n'], by simp [hfit, htr]⟩
    · exact ⟨p ++ placeholderL, by simp [hfit, htr]⟩

theorem pyShorten_length (s : String) (width : Nat) (t : String)
    (h : pyShorten s width = some t) : t.length ≤ width := by
  unfold pyShorten at h
  rcases hl : pyShortenL s.data width with _ | u
  · rw [hl] at h; exact absurd h (by simp)
  · rw [hl] at h
    have ht : String.mk u = t := Option.some.inj h
    subst ht
    exact pyShortenL_length s.data width u hl

theorem pyShorten_isSome (s : String) (width : Nat) (h : 2 ≤ width) :
    ∃ t, pyShorten s width = some t := by
  obtain ⟨u, hu⟩ := pyShortenL_isSome s.data width h
  exact ⟨String.mk u, by simp [pyShorten, hu]⟩

theorem pyWordsAux_ne_nil_of_acc (l : List Char) :
    ∀ acc : List Char, acc ≠ [] → pyWordsAux l acc ≠ [] := by
  induction l with
  | nil =>
    intro acc hacc
    simp only [pyWordsAux]
    have : acc.isEmpty = false := by
      cases acc with
      | nil => exact absurd rfl hacc
      | cons a as => rfl
    simp [this]
  | cons c cs ih =>
    intro acc hacc
    simp only [pyWordsAux]
    by_cases hws : isPyWs c
    · have : acc.isEmpty = false := by
        cases acc with
        | nil => exact absurd rfl hacc
        | cons a as => rfl
      simp [hws, this]
    · simp only [hws, Bool.false_eq_true, if_false]
      exact ih (c :: acc) (by simp)

theorem pyWordsAux_ne_nil (l : List Char) :
    ∀ acc : List Char, (∃ c ∈ l, isPyWs c = false) → pyWordsAux l acc ≠ [] := by
  induction l with
  | nil => intro acc h; simp at h
  | cons c cs ih =>
    intro acc h
    simp only [pyWordsAux]
    by_cases hws : isPyWs c
    · have h' : ∃ d ∈ cs, isPyWs d = false := by
        rcases h with ⟨d, hd, hdws⟩
        rcases List.mem_cons.mp hd with rfl | hmem
        · rw [hws] at hdws; cases hdws
        · exact ⟨d, hmem, hdws⟩
      by_cases hacc : acc.isEmpty
      · simp only [hws, if_true, hacc]
        exact ih [] h'
      · simp only [hws, if_true, hacc, Bool.false_eq_true, if_false]
        simp
    · simp only [hws, Bool.false_eq_true, if_false]
      exact pyWordsAux_ne_nil_of_acc cs (c :: acc) (by simp)

theorem pyWordsAux_wf (l : List Char) :
    ∀ acc : List Char, (∀ c ∈ acc, isPyWs c = false) →
      ∀ w ∈ pyWordsAux l acc, w ≠ [] ∧ ∀ c ∈ w, isPyWs c = false := by
  induction l with
  | nil =>
    intro acc hacc w hw
    simp only [pyWordsAux] at hw
    by_cases he : acc.isEmpty
    · simp [he] at hw
    · simp only [he, Bool.false_eq_true, if_false, List.mem_singleton] at hw
      subst hw
      constructor
      · intro hrev
        have : acc = [] := by simpa using congrArg List.reverse hrev
        rw [List.isEmpty_iff] at he
        exact he this
      · intro c hc
        exact hacc c (List.mem_reverse.mp hc)
  | cons c cs ih =>
    intro acc hacc w hw
    simp only [pyWordsAux] at hw
    by_cases hws : isPyWs c
    · by_cases he : acc.isEmpty
      · simp only [hws, if_true, he] at hw
        exact ih [] (by simp) w hw
      · simp only [hws, if_true, he, Bool.false_eq_true, if_false, List.mem_cons] at hw
        rcases hw with rfl | hw
        · constructor
          · intro hrev
            have : acc = [] := by simpa using congrArg List.reverse hrev
            rw [List.isEmpty_iff] at he
            exact he this
          · intro d hd
            exact hacc d (List.mem_reverse.mp hd)
        · exact ih [] (by simp) w hw
    · simp only [hws, Bool.false_eq_true, if_false] at hw
      refine ih (c :: acc) ?_ w hw
      intro d hd
      rcases List.mem_cons.mp hd with rfl | hd
      · simpa using hws
      · exact hacc d hd

theorem mem_joinWords_head (w : List Char) (ws : List (List Char)) (c : Char)
    (hc : c ∈ w) : c ∈ joinWords (w :: ws) := by
  cases ws with
  | nil => simpa [joinWords] using hc
  | cons x xs =>
    simp only [joinWords]
    exact List.mem_append.mpr (Or.inl hc)

/-- The result of the modelled `shorten` keeps at least one non-whitespace
character whenever the input has one (in the truncation branches the
placeholder itself contains the non-whitespace `…`). -/
theorem pyShortenL_nonWs (l : List Char) (width : Nat) (t : List Char)
    (hc : ∃ c ∈ l, isPyWs c = false) (h : pyShortenL l width = some t) :
    ∃ c ∈ t, isPyWs c = false := by
  unfold pyShortenL at h
  by_cases hw : width < 2
  · simp [hw] at h
  · simp only [hw, if_false] at h
    by_cases hfit : (joinWords (pyWords l)).length ≤ width
    · simp only [hfit, if_true, Option.some.injEq] at h
      subst h
      rcases hne : pyWords l with _ | ⟨w, ws⟩
      · exact absurd hne (pyWordsAux_ne_nil l [] hc)
      · have hwf := pyWordsAux_wf l [] (by simp) w
          (by show w ∈ pyWords l; rw [hne]; simp)
        rcases hwf with ⟨hwne, hwchars⟩
        rcases List.exists_mem_of_ne_nil w hwne with ⟨d, hd⟩
        exact ⟨d, mem_joinWords_head w ws d hd, hwchars d hd⟩
    · simp only [hfit, if_false] at h
      rcases htr : shortenTrunc width (pyWords l) with _ | p
      · rw [htr] at h
        simp only [Option.some.injEq] at h
        subst h
        exact ⟨'…', by simp, by decide⟩
      · rw [htr] at h
        simp only [Option.some.injEq] at h
        subst h
        refine ⟨'…', ?_, by decide⟩
        exact List.mem_append.mpr (Or.inr (by simp [placeholderL]))

theorem pyShorten_nonWs (s : String) (width : Nat) (t : String)
    (hc : ∃ c ∈ s.data, isPyWs c = false) (h : pyShorten s width = some t) :
    ∃ c ∈ t.data, isPyWs c = false := by
  unfold pyShorten at h
  rcases hl : pyShortenL s.data width with _ | u
  · rw [hl] at h; exact absurd h (by simp)
  · rw [hl] at h
    have ht : String.mk u = t := Option.some.inj h
    subst ht
    exact pyShortenL_nonWs s.data width u hc hl

theorem pyShorten_ne_empty (s : String) (width : Nat) (t : String)
    (hc : ∃ c ∈ s.data, isPyWs c = false) (h : pyShorten s width = some t) :
    t ≠ "" := by
  obtain ⟨c, hct, _⟩ := pyShorten_nonWs s width t hc h
  intro he
  rw [he] at hct
  simp at hct

/-!
Embedding of `app/prgen/context_parsing.py` (`TicketContext._parse`).

The two path regexes and the URL regex are embedded as executable
left-to-right scanners with `re.findall` / `re.sub` semantics.  For the
path patterns `\{\{([^{}\n]*[/\\]?[^{}\n/\\]*\.(py|go|...))\}\}` (and the
back-tick twin) a match starting at an opening delimiter pair exists
precisely when the maximal run of characters excluded from the body
classes (`{`, `}`, newline resp. back-tick, newline) that follows is
immediately closed by the closing delimiter and ends in a dot plus one of
the allow-listed extensions: the leading `[^...]*` absorbs any prefix of
the run (including slashes and backslashes), the optional slash and the
slash-free tail can always be chosen empty, and the closing delimiter
anchors the end at the extension.  The scanners below implement exactly
that characterization, advancing one character on a failed start position
and past the whole match otherwise; they also return the residual text
with the matches deleted (`re.sub(pattern, "", text)`).  A `fuel`
parameter (initialized to the input length, an upper bound on the number
of scanning steps) keeps the recursion structural.
-/

/-- The fixed extension allow-list of `TicketContext._parse`. -/
def allowedExts : List String :=
  ["py", "go", "js", "ts", "tsx", "java", "yaml", "json", "yml", "md",
   "txt", "sh", "jsx", "vue", "php", "rb", "cpp", "c", "h"]

/-- Does a candidate path body end in `.ext` for an allow-listed `ext`
(the suffix the regex anchors right before the closing delimiter)? -/
def endsWithDotExt (r : List Char) : Bool :=
  allowedExts.any (fun e => List.isSuffixOf ('.' :: e.data) r)

/-- The back-tick character (U+0060). -/
def btChar : Char := Char.ofNat 96

/-- Scanner for the brace-delimited path pattern: returns
(`re.findall` captures, `re.sub(pattern, "", text)` residual). -/
def fileScanF : Nat → List Char → List (List Char) × List Char
  | 0, l => ([], l)
  | _ + 1, [] => ([], [])
  | fuel + 1, '{' :: '{' :: rest =>
    let run := rest.takeWhile (fun c => c != '{' && c != '}' && c != '\n')
    (match rest.drop run.length with
     | '}' :: '}' :: tail =>
       if endsWithDotExt run then
         let r := fileScanF fuel tail
         (run :: r.1, r.2)
       else
         let r := fileScanF fuel ('{' :: rest)
         (r.1, '{' :: r.2)
     | _ =>
       let r := fileScanF fuel ('{' :: rest)
       (r.1, '{' :: r.2))
  | fuel + 1, c :: rest =>
    let r := fileScanF fuel rest
    (r.1, c :: r.2)

/-- Scanner for the back-tick-delimited path pattern (same conventions). -/
def btScanF : Nat → List Char → List (List Char) × List Char
  | 0, l => ([], l)
  | _ + 1, [] => ([], [])
  | fuel + 1, c :: rest =>
    if c = btChar then
      let run := rest.takeWhile (fun d => d != btChar && d != '\n')
      match rest.drop run.length with
      | d :: tail =>
        if d = btChar then
          if endsWithDotExt run then
            let r := btScanF fuel tail
            (run :: r.1, r.2)
          else
            let r := btScanF fuel rest
            (r.1, c :: r.2)
        else
          let r := btScanF fuel rest
          (r.1, c :: r.2)
      | [] =>
        let r := btScanF fuel rest
        (r.1, c :: r.2)
    else
      let r := btScanF fuel rest
      (r.1, c :: r.2)

/-- A character matched by `[^\s)]` in the URL regex (`Char.isWhitespace`
covers space, tab, carriage return and newline; the rarely occurring
vertical-tab and form-feed characters of the Python class are not
modelled). -/
def urlChar (c : Char) : Bool := !c.isWhitespace && c != ')'

/-- Scanner for `re.findall(r"https?://[^\s)]+", text)`. -/
def urlScanF : Nat → List Char → List (List Char)
  | 0, _ => []
  | _ + 1, [] => []
  | fuel + 1, c :: rest =>
    if ("https://".data).isPrefixOf (c :: rest) then
      let tail := (c :: rest).drop 8
      let run := tail.takeWhile urlChar
      if run.isEmpty then urlScanF fuel rest
      else ("https://".data ++ run) :: urlScanF fuel (tail.drop run.length)
    else if ("http://".data).isPrefixOf (c :: rest) then
      let tail := (c :: rest).drop 7
      let run := tail.takeWhile urlChar
      if run.isEmpty then urlScanF fuel rest
      else ("http://".data ++ run) :: urlScanF fuel (tail.drop run.length)
    else urlScanF fuel rest

/-- Python `u.rstrip` with the punctuation set dot, comma, semicolon, closing parenthesis. -/
def rstripPunct (u : List Char) : List Char :=
  (u.reverse.dropWhile (fun c => c == '.' || c == ',' || c == ';' || c == ')')).reverse

/-- Python `sub in u` (substring containment). -/
def containsSub (u : List Char) (pat : String) : Bool :=
  (List.range (u.length + 1)).any (fun i => (pat.data).isPrefixOf (u.drop i))

/-- The documentation-marker test of `TicketContext._parse`:
a membership test of `atlassian.net/wiki`, of `/wiki/spaces/`, or of
`confluence` as a substring of the URL. -/
def isDocUrl (u : List Char) : Bool :=
  containsSub u "atlassian.net/wiki" || containsSub u "/wiki/spaces/" ||
    containsSub u "confluence"

/-- Consume one `[^/]+/` segment: the segment is forced to extend to the
first slash, which is then consumed. -/
def parseSeg (l : List Char) : Option (List Char) :=
  let seg := l.takeWhile (fun c => c != '/')
  if seg.isEmpty then none
  else
    match l.drop seg.length with
    | '/' :: rest => some rest
    | _ => none

/-- Match `https://github\.com/[^/]+/[^/]+/<kindSeg>\d+` at the start of `l`
(`kindSeg` is `"pull/"` or `"issues/"`). -/
def githubNumPatAt (kindSeg : String) (l : List Char) : Bool :=
  if ("https://github.com/".data).isPrefixOf l then
    match parseSeg (l.drop 19) with
    | some r1 =>
      match parseSeg r1 with
      | some r2 =>
        if (kindSeg.data).isPrefixOf r2 then
          match r2.drop kindSeg.length with
          | d :: _ => d.isDigit
          | [] => false
        else false
      | none => false
    | none => false
  else false

def isHexChar (c : Char) : Bool :=
  c.isDigit || ('a' ≤ c && c ≤ 'f') || ('A' ≤ c && c ≤ 'F')

/-- Match `https://github\.com/[^/]+/[^/]+/commit/[0-9a-fA-F]{6,40}`
at the start of `l`. -/
def githubCommitPatAt (l : List Char) : Bool :=
  if ("https://github.com/".data).isPrefixOf l then
    match parseSeg (l.drop 19) with
    | some r1 =>
      match parseSeg r1 with
      | some r2 =>
        if ("commit/".data).isPrefixOf r2 then
          decide (6 ≤ ((r2.drop 7).takeWhile isHexChar).length)
        else false
      | none => false
    | none => false
  else false

/-- `re.search`: does the pattern match starting at some position? -/
def searchAt (p : List Char → Bool) (u : List Char) : Bool :=
  (List.range (u.length + 1)).any (fun i => p (u.drop i))

def isPrUrl (u : List Char) : Bool := searchAt (githubNumPatAt "pull/") u

def isIssueUrl (u : List Char) : Bool := searchAt (githubNumPatAt "issues/") u

def isCommitUrl (u : List Char) : Bool := searchAt githubCommitPatAt u

/-- The five URL kind lists accumulated by the classification loop of
`TicketContext._parse`, in declaration order. -/
structure UrlKinds where
  confluence : List String
  pr : List String
  issue : List String
  commit : List String
  generic : List String
deriving Repr, DecidableEq

/-- One iteration of the classification loop (`for u in all_urls`): the
documentation test is an independent `if`, the host-specific tests form an
`if/elif/elif/else` chain ending in `generic`. -/
def classifyStep (acc : UrlKinds) (u : List Char) : UrlKinds :=
  let v := String.mk (rstripPunct u)
  let acc1 :=
    if isDocUrl u then { acc with confluence := acc.confluence ++ [v] } else acc
  if isPrUrl u then { acc1 with pr := acc1.pr ++ [v] }
  else if isIssueUrl u then { acc1 with issue := acc1.issue ++ [v] }
  else if isCommitUrl u then { acc1 with commit := acc1.commit ++ [v] }
  else { acc1 with generic := acc1.generic ++ [v] }

def classifyUrls (urls : List (List Char)) : UrlKinds :=
  urls.foldl classifyStep ⟨[], [], [], [], []⟩

/-- Path cleanup applied to every matched path: `strip()`, drop a leading
`./`, convert backslashes to forward slashes. -/
def cleanPath (p : List Char) : List Char :=
  let s := pyStripL p
  let s := if ("./".data).isPrefixOf s then s.drop 2 else s
  s.map (fun c => if c = '\\' then '/' else c)

structure TicketContext where
  description : String
  file_paths : List String
  confluence_urls : List String
  github_pr_urls : List String
  github_issue_urls : List String
  github_commit_urls : List String
  generic_urls : List String
  instructions : String
deriving Repr, DecidableEq

/-- `TicketContext._parse` assembled from the scanners: brace-form captures
first, then back-tick captures, each cleaned; URLs classified by
`classifyStep`; instructions = text with brace matches deleted, then
back-tick matches deleted, then stripped. -/
def parseTicket (text : String) : TicketContext :=
  let tl := text.data
  let braceRes := fileScanF tl.length tl
  let btCaps := (btScanF tl.length tl).1
  let all_paths := braceRes.1 ++ btCaps
  let cleaned_paths := all_paths.map (fun p => String.mk (cleanPath p))
  let kinds := classifyUrls (urlScanF tl.length tl)
  let resid1 := braceRes.2
  let instructions := String.mk (pyStripL (btScanF resid1.length resid1).2)
  { description := text
    file_paths := cleaned_paths
    confluence_urls := kinds.confluence
    github_pr_urls := kinds.pr
    github_issue_urls := kinds.issue
    github_commit_urls := kinds.commit
    generic_urls := kinds.generic
    instructions := instructions }

/-- `TicketContext.__init__`: `description or ""` maps a missing (`None`)
description to the empty string before parsing. -/
def TicketContext.ofDescription (description : Option String) : TicketContext :=
  parseTicket (description.getD "")

/-!
Embedding of `app/prgen/repo_context.py`.

The checkout is modelled as an association list `fs` from relative path to
file content (`p.exists()` = the path has an entry, `p.read_text(...)` =
the entry value).  The Python `dict` being filled is modelled as an
order-preserving association list with overwrite-on-existing-key
(`dictInsert`), matching `dict` insertion semantics when a hinted path
repeats.  `none` models the `ValueError` that `textwrap.shorten` raises
when the per-file budget is below 2.
-/

/-- Python `d[k] = v` on an order-preserving dictionary. -/
def dictInsert (d : List (String × String)) (k v : String) :
    List (String × String) :=
  if d.any (fun kv => kv.1 == k) then
    d.map (fun kv => if kv.1 == k then (k, v) else kv)
  else d ++ [(k, v)]

/-- The loop of `gather_candidate_files`: skip missing paths, truncate the
content of existing ones to the per-file budget. -/
def gatherFilesGo (fs : List (String × String)) (per : Nat) :
    List String → List (String × String) → Option (List (String × String))
  | [], acc => some acc
  | rel :: rest, acc =>
    match List.lookup rel fs with
    | none => gatherFilesGo fs per rest acc
    | some content =>
      match pyShorten content per with
      | none => none
      | some t => gatherFilesGo fs per rest (dictInsert acc rel t)

/-- `gather_candidate_files(repo_path, hinted_paths, budget_chars=6000)`:
`per_file_budget = max(budget_chars // max(len(hinted_paths), 1), 1)`,
then one truncated entry per existing hinted path. -/
def gather_candidate_files (fs : List (String × String))
    (hinted_paths : List String) (budget_chars : Nat) :
    Option (List (String × String)) :=
  let per_file_budget := max (budget_chars / max hinted_paths.length 1) 1
  gatherFilesGo fs per_file_budget hinted_paths []

/-!
Embedding of `app/prgen/ai_integration.py`.

The language-model capability `call_gemini` (network call, configuration
lookup and the final `.strip()` of the response included) is modelled as an
opaque parameter `gemini : String → Option String`; `none` models any
exception it raises.
-/

/-- The `contextual_prefix` of `summarize_text_with_gemini` (empty unless
the ticket summary or the ticket instructions are non-empty). -/
def contextBlock (tsum tinstr : String) : String :=
  if tsum = "" ∧ tinstr = "" then ""
  else
    ("Ticket summary:\n" ++ tsum ++ "\n\n") ++
    ("Ticket instructions:\n" ++ tinstr ++ "\n\n")

/-- The summarization prompt assembled by `summarize_text_with_gemini`. -/
def summaryPrompt (text label : String) (char_limit : Nat)
    (tsum tinstr : String) : String :=
  "You are assisting in software development. Summarize the following reference material " ++
  "titled \x27" ++ label ++ "\x27 into a concise developer brief under " ++
  toString char_limit ++ " characters. " ++
  "Extract ONLY information that materially helps implement the ticket. Focus on APIs, data models, acceptance criteria, constraints, decisions, file/function identifiers. Ignore irrelevant background. " ++
  "Do not include code fences or markdown, just plain text.\n\n" ++
  contextBlock tsum tinstr ++
  "--- BEGIN REFERENCE ---\n" ++ text ++ "\n--- END REFERENCE ---\n"

/-- `summarize_text_with_gemini`: call the capability; on success truncate
the summary to `char_limit`; on any failure (of the capability, or of the
truncation of the summary inside the same `try`) fall back to truncating
the raw text to the same limit.  A `ValueError` from the fallback
truncation itself (possible only when `char_limit < 2`) propagates. -/
def summarize_text_with_gemini (gemini : String → Option String)
    (text label : String) (char_limit : Nat) (tsum tinstr : String) :
    Option String :=
  match gemini (summaryPrompt text label char_limit tsum tinstr) with
  | some summarized =>
    match pyShorten summarized char_limit with
    | some r => some r
    | none => pyShorten text char_limit
  | none => pyShorten text char_limit

/-!
Embedding of `app/prgen/pipeline.py`: `gather_external_context` and the
response-parsing tail of `generate_changes_with_ai`.

The three fetchers are opaque parameters returning `Except String`
values; an `error e` models a raised exception with message `e`.  The
`blocks` dict is modelled as an order-preserving list of label-text pairs;
the per-kind 1-based index makes the generated labels pairwise distinct,
so plain list append coincides with `dict` insertion.
-/

def conflLabel (idx : Nat) (title : String) : String :=
  "CONFLUENCE[" ++ toString idx ++ "]: " ++ title

def conflErrLabel (idx : Nat) : String :=
  "CONFLUENCE[" ++ toString idx ++ "] ERROR"

def prLabel (idx : Nat) (subkey : String) : String :=
  "GITHUB_PR[" ++ toString idx ++ "] " ++ subkey

def prErrLabel (idx : Nat) : String :=
  "GITHUB_PR[" ++ toString idx ++ "] ERROR"

def webLabel (idx : Nat) (title : String) : String :=
  "WEB[" ++ toString idx ++ "]: " ++ title

def webErrLabel (idx : Nat) : String :=
  "WEB[" ++ toString idx ++ "] ERROR"

/-- The failure text `f"Failed to fetch \x7burl\x7d: \x7be\x7d"` stored in
an error block. -/
def fetchFailText (url e : String) : String :=
  "Failed to fetch " ++ url ++ ": " ++ e

/-- Blocks contributed by one documentation reference. -/
def resolveConfluence (confl : String → Except String (String × String))
    (idx : Nat) (url : String) : List (String × String) :=
  match confl url with
  | .ok tt => [(conflLabel idx tt.1, tt.2)]
  | .error e => [(conflErrLabel idx, fetchFailText url e)]

/-- Blocks contributed by one code-review reference (one block per
returned section on success). -/
def resolvePr (pr : String → Except String (List (String × String)))
    (idx : Nat) (url : String) : List (String × String) :=
  match pr url with
  | .ok sections => sections.map (fun s => (prLabel idx s.1, s.2))
  | .error e => [(prErrLabel idx, fetchFailText url e)]

/-- Blocks contributed by one generic web reference. -/
def resolveWeb (web : String → Except String (String × String))
    (idx : Nat) (url : String) : List (String × String) :=
  match web url with
  | .ok tt => [(webLabel idx tt.1, tt.2)]
  | .error e => [(webErrLabel idx, fetchFailText url e)]

/-- `for idx, url in enumerate(urls, start=1)` over one kind. -/
def fetchLoop (f : Nat → String → List (String × String)) :
    Nat → List String → List (String × String)
  | _, [] => []
  | idx, u :: us => f idx u ++ fetchLoop f (idx + 1) us

/-- The fetch phase of `gather_external_context` (lines 45-67):
documentation references, then code-review references (only when a GitHub
client is available), then generic references.  URLs of the issue and
commit kinds are never fetched. -/
def fetchPhase (confl : String → Except String (String × String))
    (pr : String → Except String (List (String × String)))
    (web : String → Except String (String × String))
    (ghPresent : Bool) (ctx : TicketContext) : List (String × String) :=
  fetchLoop (resolveConfluence confl) 1 ctx.confluence_urls ++
    (if ghPresent then fetchLoop (resolvePr pr) 1 ctx.github_pr_urls else []) ++
    fetchLoop (resolveWeb web) 1 ctx.generic_urls

/-- The summarization pass: replace every block text by its summary
(`none` propagates an uncaught `ValueError`). -/
def mapSummarize (gemini : String → Option String) (lim : Nat)
    (tsum tinstr : String) :
    List (String × String) → Option (List (String × String))
  | [] => some []
  | b :: rest =>
    match summarize_text_with_gemini gemini b.2 b.1 lim tsum tinstr with
    | none => none
    | some s =>
      match mapSummarize gemini lim tsum tinstr rest with
      | none => none
      | some rs => some ((b.1, s) :: rs)

/-- The final trim pass: truncate every block text to `per`. -/
def mapTrim (per : Nat) :
    List (String × String) → Option (List (String × String))
  | [] => some []
  | b :: rest =>
    match pyShorten b.2 per with
    | none => none
    | some t =>
      match mapTrim per rest with
      | none => none
      | some rs => some ((b.1, t) :: rs)

/-- The budget phase of `gather_external_context` (lines 69-93): early
return on no blocks; `per_summary_limit = min(max(budget // n, 500), cap)`;
optional summarization; final trim to `per_block = max(budget // n, 1)`.
`enableSumm` models the `SUMMARIZE_EXTERNAL_CONTEXT` toggle and `cap` the
`PER_SOURCE_SUMMARY_CHAR_LIMIT` configuration value (default 3000). -/
def budgetPhase (blocks : List (String × String))
    (gemini : String → Option String) (enableSumm : Bool) (cap : Nat)
    (budget : Nat) (tsum tinstr : String) :
    Option (List (String × String)) :=
  if blocks.isEmpty then some blocks
  else
    let per_summary_limit := min (max (budget / blocks.length) 500) cap
    match
      (if enableSumm then mapSummarize gemini per_summary_limit tsum tinstr blocks
       else some blocks) with
    | none => none
    | some bs => mapTrim (max (budget / bs.length) 1) bs

/-- `gather_external_context` in full: fetch phase then budget phase. -/
def gather_external_context (confl : String → Except String (String × String))
    (pr : String → Except String (List (String × String)))
    (web : String → Except String (String × String))
    (gemini : String → Option String) (ghPresent : Bool) (enableSumm : Bool)
    (cap : Nat) (ctx : TicketContext) (external_budget_chars : Nat)
    (ticket_summary ticket_instructions : String) :
    Option (List (String × String)) :=
  budgetPhase (fetchPhase confl pr web ghPresent ctx) gemini enableSumm cap
    external_budget_chars ticket_summary ticket_instructions

/-!
The response parser: the fence-stripping cleanup and JSON decoding tail of
`generate_changes_with_ai` (pipeline.py lines 142-158).

`json.loads` is modelled by a recursive-descent parser for a JSON value
(objects, arrays, strings with the common escapes, integers, booleans,
null), fuelled by the input length.  Simplifications, none observable in
any property below: numbers are integers (floats and exponents are
rejected), the escapes `\b`, `\f` and `\uXXXX` are rejected, and a
`patches` field holding a sized non-list value is treated as a decode
error (CPython would defer that failure to patch application).
-/

/-- Opening-marker removal of the defensive cleanup:
`cleaned[7:]` after `startswith("```json")`, else `cleaned[3:]` after
`startswith("```")`, else unchanged. -/
def stripOpenFence (c0 : List Char) : List Char :=
  if ("```json".data).isPrefixOf c0 then c0.drop 7
  else if ("```".data).isPrefixOf c0 then c0.drop 3
  else c0

/-- Closing-marker removal of the defensive cleanup:
`cleaned[:-3]` after `endswith("```")`, else unchanged. -/
def stripCloseFence (c1 : List Char) : List Char :=
  if ("```".data).isSuffixOf c1 then c1.take (c1.length - 3) else c1

/-- The defensive cleanup of the model reply: strip, remove an opening
fence marker (with or without the `json` language tag), remove a closing
fence marker, strip again. -/
def cleanReply (reply : String) : String :=
  String.mk (pyStripL (stripCloseFence (stripOpenFence (pyStripL reply.data))))

inductive Json where
  | null
  | bool (b : Bool)
  | num (n : Int)
  | str (s : String)
  | arr (elems : List Json)
  | obj (fields : List (String × Json))

/-- JSON whitespace skipping (space, tab, newline, carriage return). -/
def jsonSkipWs (l : List Char) : List Char := l.dropWhile isPyWs

/-- Parse the remainder of a JSON string after the opening quote; returns
the decoded content and the input after the closing quote. -/
def parseJStr : Nat → List Char → Option (List Char × List Char)
  | 0, _ => none
  | _ + 1, [] => none
  | fuel + 1, c :: rest =>
    if c = '"' then some ([], rest)
    else if c = '\\' then
      match rest with
      | [] => none
      | e :: rest2 =>
        let dec : Option Char :=
          if e = '"' then some '"'
          else if e = '\\' then some '\\'
          else if e = '/' then some '/'
          else if e = 'n' then some '\n'
          else if e = 't' then some '\t'
          else if e = 'r' then some '\r'
          else none
        match dec with
        | none => none
        | some d =>
          match parseJStr fuel rest2 with
          | none => none
          | some p => some (d :: p.1, p.2)
    else
      match parseJStr fuel rest with
      | none => none
      | some p => some (c :: p.1, p.2)

/-- Parse a JSON integer (floats and exponents rejected). -/
def parseJNum (l : List Char) : Option (Int × List Char) :=
  let neg := match l with | '-' :: _ => true | _ => false
  let l1 := if neg then l.drop 1 else l
  let ds := l1.takeWhile (fun c => c.isDigit)
  if ds.isEmpty then none
  else
    let n : Nat := ds.foldl (fun a c => a * 10 + (c.toNat - 48)) 0
    let rest := l1.drop ds.length
    match rest with
    | c :: _ =>
      if c = '.' || c = 'e' || c = 'E' then none
      else some (if neg then -(n : Int) else (n : Int), rest)
    | [] => some (if neg then -(n : Int) else (n : Int), rest)

mutual

def parseJVal : Nat → List Char → Option (Json × List Char)
  | 0, _ => none
  | fuel + 1, input =>
    match jsonSkipWs input with
    | [] => none
    | c :: rest =>
      if c = '"' then
        match parseJStr (fuel + 1) rest with
        | some p => some (.str (String.mk p.1), p.2)
        | none => none
      else if c = '[' then
        match jsonSkipWs rest with
        | ']' :: r => some (.arr [], r)
        | _ =>
          match parseJArr fuel rest with
          | some p => some (.arr p.1, p.2)
          | none => none
      else if c = '{' then
        match jsonSkipWs rest with
        | '}' :: r => some (.obj [], r)
        | _ =>
          match parseJObj fuel rest with
          | some p => some (.obj p.1, p.2)
          | none => none
      else if c = 't' then
        if ("rue".data).isPrefixOf rest then some (.bool true, rest.drop 3)
        else none
      else if c = 'f' then
        if ("alse".data).isPrefixOf rest then some (.bool false, rest.drop 4)
        else none
      else if c = 'n' then
        if ("ull".data).isPrefixOf rest then some (.null, rest.drop 3)
        else none
      else
        match parseJNum (c :: rest) with
        | some p => some (.num p.1, p.2)
        | none => none

def parseJArr : Nat → List Char → Option (List Json × List Char)
  | 0, _ => none
  | fuel + 1, input =>
    match parseJVal fuel input with
    | none => none
    | some p =>
      match jsonSkipWs p.2 with
      | ',' :: r2 =>
        match parseJArr fuel r2 with
        | some q => some (p.1 :: q.1, q.2)
        | none => none
      | ']' :: r2 => some ([p.1], r2)
      | _ => none

def parseJObj : Nat → List Char → Option (List (String × Json) × List Char)
  | 0, _ => none
  | fuel + 1, input =>
    match jsonSkipWs input with
    | '"' :: rest =>
      match parseJStr (fuel + 1) rest with
      | none => none
      | some k =>
        match jsonSkipWs k.2 with
        | ':' :: r2 =>
          match parseJVal fuel r2 with
          | none => none
          | some v =>
            match jsonSkipWs v.2 with
            | ',' :: r4 =>
              match parseJObj fuel r4 with
              | some q => some ((String.mk k.1, v.1) :: q.1, q.2)
              | none => none
            | '}' :: r4 => some ([(String.mk k.1, v.1)], r4)
            | _ => none
        | _ => none
    | _ => none

end

/-- `json.loads`: a single JSON value followed only by whitespace. -/
def jsonLoads (s : String) : Option Json :=
  match parseJVal (2 * s.data.length + 2) s.data with
  | some p => if (jsonSkipWs p.2).isEmpty then some p.1 else none
  | none => none

/-- The decoding tail of `generate_changes_with_ai`: clean the reply,
decode it, extract `patches` with `[]` as the default; any failure is the
`ValueError("Malformed JSON from Gemini")`. -/
def parse_model_reply (reply : String) : Except String (List Json) :=
  match jsonLoads (cleanReply reply) with
  | none => .error "Malformed JSON from Gemini"
  | some j =>
    match j with
    | .obj kvs =>
      match List.lookup "patches" kvs with
      | some (.arr xs) => .ok xs
      | some _ => .error "Malformed JSON from Gemini"
      | none => .ok []
    | _ => .error "Malformed JSON from Gemini"

/-!
Embedding of `app/prgen/prompt_builder.py`.

`issue` contributes `issue.key` and `issue.fields.summary`; repository
snippets and external blocks are the order-preserving mappings produced
upstream.  The function reads the environment only inside a
`try/except`-guarded logging block (`LOG_PROMPT_PREVIEW_CHARS`) that
prints a preview and never modifies the prompt, so the environment
parameter does not occur in the result.
-/

structure Issue where
  key : String
  summary : String

/-- `build_prompt(issue, ctx, repo_snippets, external_blocks)`. -/
def build_prompt (_env : String → Option String) (issue : Issue)
    (ctx : TicketContext) (repo_snippets : List (String × String))
    (external_blocks : Option (List (String × String))) : String :=
  let prompt :=
    "You are a senior software engineer tasked with implementing Jira ticket " ++
    issue.key ++ ".\n\n" ++
    "Ticket summary: " ++ issue.summary ++ "\n\n" ++
    "Ticket description (user instructions):\n" ++ ctx.instructions ++ "\n\n" ++
    "Repository snippets (read‑only context):\n"
  let prompt := repo_snippets.foldl
    (fun acc b =>
      acc ++ "--- BEGIN FILE " ++ b.1 ++ " ---\n" ++ b.2 ++
        "\n--- END FILE " ++ b.1 ++ " ---\n")
    prompt
  let prompt :=
    match external_blocks with
    | none => prompt
    | some bs =>
      if bs.isEmpty then prompt
      else
        bs.foldl
          (fun acc b =>
            acc ++ "--- BEGIN " ++ b.1 ++ " ---\n" ++ b.2 ++
              "\n--- END " ++ b.1 ++ " ---\n")
          (prompt ++ "\nExternal references (read‑only context):\n")
  prompt ++
    "\nReturn ONLY valid JSON shaped as:\n" ++
    "\x7b \"patches\": [ \x7b \"path\": \"relative/file\", \"content\": \"new content…\" \x7d, … ] \x7d\n" ++
    "No markdown fences, no commentary."

/-! Concrete collaborators used by evaluated statements below. -/

/-- A summarization capability that fails on every call. -/
def failingGemini : String → Option String := fun _ => none

/-- A fetcher that raises on every documentation URL. -/
def downConfl : String → Except String (String × String) :=
  fun _ => .error "boom"

/-- A fetcher that raises on every code-review URL. -/
def downPr : String → Except String (List (String × String)) :=
  fun _ => .error "boom"

/-- A fetcher that raises on every generic URL. -/
def downWeb : String → Except String (String × String) :=
  fun _ => .error "boom"

/-!
Claim theorems.
-/

/-- C10: constructing a `TicketContext` from a `None` or empty description
succeeds and yields the empty context: empty stored description, no file
paths, every URL kind empty, empty instructions. -/
theorem ticketContext_of_empty_description :
    TicketContext.ofDescription none =
      { description := "", file_paths := [], confluence_urls := [],
        github_pr_urls := [], github_issue_urls := [],
        github_commit_urls := [], generic_urls := [], instructions := "" } ∧
    TicketContext.ofDescription (some "") =
      { description := "", file_paths := [], confluence_urls := [],
        github_pr_urls := [], github_issue_urls := [],
        github_commit_urls := [], generic_urls := [], instructions := "" } := by
  constructor <;> rfl

/-- The scenario input of C5. -/
def scenarioText : String :=
  "Fix bug in \x7b\x7bsrc/app.py\x7d\x7d per `docs/readme.md` — see https://github.com/acme/widgets/pull/42"

/-- C5: on the scenario input the extractor yields the file paths
`["src/app.py", "docs/readme.md"]` in that order (brace-form match before
back-tick-form match), classifies the pull-request URL as the only
code-review reference, and leaves residual instructions free of brace and
back-tick characters. -/
theorem scenario_extraction :
    (parseTicket scenarioText).file_paths = ["src/app.py", "docs/readme.md"] ∧
    (parseTicket scenarioText).github_pr_urls =
      ["https://github.com/acme/widgets/pull/42"] ∧
    (parseTicket scenarioText).instructions =
      "Fix bug in  per  — see https://github.com/acme/widgets/pull/42" ∧
    ((parseTicket scenarioText).instructions.data.all
      (fun c => !(c = '{' || c = '}' || c = btChar))) = true := by
  refine ⟨by decide, by decide, by decide, by decide⟩

/-- C9: `build_prompt` is deterministic: the assembled prompt depends only
on the ticket key and summary, the parsed context, the repository-snippet
mapping and the external-block mapping — in particular it is independent
of the ambient environment (read only by the logging preview), so two runs
on identical inputs produce byte-identical text. -/
theorem build_prompt_deterministic (env1 env2 : String → Option String)
    (issue : Issue) (ctx : TicketContext)
    (repo_snippets : List (String × String))
    (external_blocks : Option (List (String × String))) :
    build_prompt env1 issue ctx repo_snippets external_blocks =
      build_prompt env2 issue ctx repo_snippets external_blocks := rfl

/-- The failing input of C3: a documentation-marker URL matching none of
the host-specific patterns. -/
def docUrlText : String := "See https://example.com/wiki/spaces/DOC/overview"

/-- C3: divergence of the code from the classification rule.  The rule
(spec §4.1) tests the host-specific group only when the documentation test
did not claim the URL and falls back to `generic` only when neither
matched; the code instead uses an independent `if` for the documentation
test, so the trailing `else` of the host-specific chain also stores every
documentation-only URL in `generic_urls`.  Evaluated at the failing input:
the URL lands in `confluence_urls` and in `generic_urls`. -/
theorem doc_url_stored_in_generic_too :
    (parseTicket docUrlText).confluence_urls =
      ["https://example.com/wiki/spaces/DOC/overview"] ∧
    (parseTicket docUrlText).generic_urls =
      ["https://example.com/wiki/spaces/DOC/overview"] := by
  refine ⟨by decide, by decide⟩

/-- C2 (counterexample): with a summarization capability failing on every
call, a block whose raw text is empty comes out of the Budget Allocator
with empty text, so the allocator does not return non-empty text for
*every* input block. -/
theorem degradation_empty_block_cex :
    budgetPhase [("L", "")] failingGemini true 3000 6000 "" "" =
      some [("L", "")] ∧
    ¬ (∀ b ∈ [(("L" : String), ("" : String))], b.2 ≠ "") := by
  refine ⟨rfl, fun h => h ("L", "") (by simp) rfl⟩

/-- C6 (counterexample): the per-file share divides by the *total* number
of hinted paths (`len(hinted_paths)`), not by the number of distinct
paths.  With the same existing path hinted twice and budget 10, the code
truncates with share `max(10 // 2, 1) = 5` (turning the 8-character
one-word content into the bare placeholder), while the distinct-count
share of the claim would be `max(10 // 1, 1) = 10`, under which the
content fits and would be kept whole. -/
theorem snippet_share_distinct_cex :
    gather_candidate_files [("a.py", "abcdefgh")] ["a.py", "a.py"] 10 =
      some [("a.py", "…\n")] ∧
    pyShorten "abcdefgh" 10 = some "abcdefgh" ∧
    ("…\n" : String) ≠ "abcdefgh" := by
  refine ⟨rfl, rfl, by decide⟩

/-- C7 (counterexample): `textwrap.shorten` collapses whitespace even when
nothing is truncated, so a stored snippet is not byte-for-byte identical
to a file that fits its share: content `"a\nb"` (3 characters, share 100)
is stored as `"a b"`.  The second run shows the truncation shape: it keeps
a word prefix and appends the placeholder — no suffix survives. -/
theorem snippet_not_byte_identical_cex :
    gather_candidate_files [("a.py", "a\nb")] ["a.py"] 100 =
      some [("a.py", "a b")] ∧
    ("a b" : String) ≠ "a\nb" ∧
    gather_candidate_files [("b.py", "alpha beta gamma")] ["b.py"] 12 =
      some [("b.py", "alpha\n…\n")] := by
  refine ⟨rfl, by decide, rfl⟩

/-!
Supporting lemmas for the budget-conservation and graceful-degradation
properties of `budgetPhase`.
-/

/-- The value `textwrap.shorten` returns whenever it does not raise
(i.e. whenever the width is at least 2). -/
def shortenD (s : String) (width : Nat) : String :=
  (pyShorten s width).getD ""

theorem pyShorten_eq_shortenD (s : String) (width : Nat) (h : 2 ≤ width) :
    pyShorten s width = some (shortenD s width) := by
  obtain ⟨t, ht⟩ := pyShorten_isSome s width h
  rw [ht, shortenD, ht]
  rfl

theorem shortenD_length (s : String) (width : Nat) (h : 2 ≤ width) :
    (shortenD s width).length ≤ width :=
  pyShorten_length s width _ (pyShorten_eq_shortenD s width h)

theorem shortenD_nonWs (s : String) (width : Nat) (h : 2 ≤ width)
    (hc : ∃ c ∈ s.data, isPyWs c = false) :
    ∃ c ∈ (shortenD s width).data, isPyWs c = false :=
  pyShorten_nonWs s width _ hc (pyShorten_eq_shortenD s width h)

theorem shortenD_ne_empty (s : String) (width : Nat) (h : 2 ≤ width)
    (hc : ∃ c ∈ s.data, isPyWs c = false) : shortenD s width ≠ "" :=
  pyShorten_ne_empty s width _ hc (pyShorten_eq_shortenD s width h)

theorem mapTrim_bound (per : Nat) :
    ∀ (bs m : List (String × String)), mapTrim per bs = some m →
      m.length = bs.length ∧ ∀ b ∈ m, b.2.length ≤ per := by
  intro bs
  induction bs with
  | nil =>
    intro m hm
    simp only [mapTrim, Option.some.injEq] at hm
    subst hm
    exact ⟨rfl, by simp⟩
  | cons b rest ih =>
    intro m hm
    simp only [mapTrim] at hm
    rcases ht : pyShorten b.2 per with _ | t
    · rw [ht] at hm; exact absurd hm (by simp)
    · rw [ht] at hm
      rcases hr : mapTrim per rest with _ | rs
      · rw [hr] at hm; exact absurd hm (by simp)
      · rw [hr] at hm
        have hm' : (b.1, t) :: rs = m := Option.some.inj hm
        subst hm'
        obtain ⟨hlen, hall⟩ := ih rs hr
        refine ⟨by simp [hlen], ?_⟩
        intro x hx
        rcases List.mem_cons.mp hx with rfl | hx
        · exact pyShorten_length b.2 per t ht
        · exact hall x hx

theorem mapTrim_closed (per : Nat) (h : 2 ≤ per) :
    ∀ bs : List (String × String),
      mapTrim per bs = some (bs.map (fun b => (b.1, shortenD b.2 per))) := by
  intro bs
  induction bs with
  | nil => rfl
  | cons b rest ih =>
    simp only [mapTrim, pyShorten_eq_shortenD b.2 per h, ih, List.map_cons]

theorem mapSummarize_length (gemini : String → Option String) (lim : Nat)
    (tsum tinstr : String) :
    ∀ (bs m : List (String × String)),
      mapSummarize gemini lim tsum tinstr bs = some m →
        m.length = bs.length := by
  intro bs
  induction bs with
  | nil =>
    intro m hm
    simp only [mapSummarize, Option.some.injEq] at hm
    subst hm; rfl
  | cons b rest ih =>
    intro m hm
    simp only [mapSummarize] at hm
    rcases hs : summarize_text_with_gemini gemini b.2 b.1 lim tsum tinstr with _ | s
    · rw [hs] at hm; exact absurd hm (by simp)
    · rw [hs] at hm
      rcases hr : mapSummarize gemini lim tsum tinstr rest with _ | rs
      · rw [hr] at hm; exact absurd hm (by simp)
      · rw [hr] at hm
        have hm' : (b.1, s) :: rs = m := Option.some.inj hm
        subst hm'
        simp [ih rs hr]

/-- When the capability fails on every call, summarization reduces to the
deterministic truncation fallback on every block. -/
theorem mapSummarize_allFail (gemini : String → Option String)
    (hg : ∀ s, gemini s = none) (lim : Nat) (hlim : 2 ≤ lim)
    (tsum tinstr : String) :
    ∀ bs : List (String × String),
      mapSummarize gemini lim tsum tinstr bs =
        some (bs.map (fun b => (b.1, shortenD b.2 lim))) := by
  intro bs
  induction bs with
  | nil => rfl
  | cons b rest ih =>
    have hsum : summarize_text_with_gemini gemini b.2 b.1 lim tsum tinstr =
        some (shortenD b.2 lim) := by
      unfold summarize_text_with_gemini
      rw [hg]
      exact pyShorten_eq_shortenD b.2 lim hlim
    simp only [mapSummarize, hsum, ih, List.map_cons]

theorem n_mul_perBlock_le (B n : Nat) : n * max (B / n) 1 ≤ B + n := by
  rcases le_or_lt (B / n) 1 with h | h
  · rw [Nat.max_eq_right h]
    omega
  · rw [Nat.max_eq_left (Nat.le_of_lt h)]
    have := Nat.div_mul_le_self B n
    calc n * (B / n) = B / n * n := Nat.mul_comm n (B / n)
      _ ≤ B := Nat.div_mul_le_self B n
      _ ≤ B + n := Nat.le_add_right B n

theorem sum_lengths_le (m : List (String × String)) (per : Nat)
    (h : ∀ b ∈ m, b.2.length ≤ per) :
    (m.map (fun b => b.2.length)).sum ≤ m.length * per := by
  have hb : ∀ x ∈ m.map (fun b => b.2.length), x ≤ per := by
    intro x hx
    obtain ⟨b, hbm, rfl⟩ := List.mem_map.mp hx
    exact h b hbm
  have := List.sum_le_card_nsmul (m.map (fun b => b.2.length)) per hb
  simpa [smul_eq_mul] using this

/-- C1: for every non-empty block set and every total external-context
budget, whenever the Budget Allocator returns (no truncation `ValueError`),
the sum of the final block text lengths after the deterministic trim pass
is at most the budget plus one rounding unit per block, with one output
block per input block; this holds with summarization enabled or disabled
and for any capability behavior. -/
theorem budget_conservation (blocks : List (String × String))
    (gemini : String → Option String) (enableSumm : Bool) (cap budget : Nat)
    (tsum tinstr : String) (m : List (String × String))
    (hne : blocks ≠ [])
    (hm : budgetPhase blocks gemini enableSumm cap budget tsum tinstr = some m) :
    (m.map (fun b => b.2.length)).sum ≤ budget + blocks.length ∧
      m.length = blocks.length := by
  have hE : blocks.isEmpty = false := by
    cases blocks with
    | nil => exact absurd rfl hne
    | cons b rest => rfl
  unfold budgetPhase at hm
  rw [hE] at hm
  simp only [Bool.false_eq_true, if_false] at hm
  have main : ∀ bs : List (String × String), bs.length = blocks.length →
      mapTrim (max (budget / bs.length) 1) bs = some m →
      (m.map (fun b => b.2.length)).sum ≤ budget + blocks.length ∧
        m.length = blocks.length := by
    intro bs hlen htrim
    obtain ⟨hmlen, hball⟩ := mapTrim_bound _ bs m htrim
    refine ⟨?_, by omega⟩
    calc (m.map (fun b => b.2.length)).sum
        ≤ m.length * max (budget / bs.length) 1 := sum_lengths_le m _ hball
      _ = bs.length * max (budget / bs.length) 1 := by rw [hmlen]
      _ ≤ budget + bs.length := n_mul_perBlock_le budget bs.length
      _ = budget + blocks.length := by rw [hlen]
  cases enableSumm with
  | false =>
    simp only [Bool.false_eq_true, if_false] at hm
    exact main blocks rfl hm
  | true =>
    simp only [if_true] at hm
    rcases hs : mapSummarize gemini (min (max (budget / blocks.length) 500) cap)
        tsum tinstr blocks with _ | bs
    · rw [hs] at hm; exact absurd hm (by simp)
    · rw [hs] at hm
      exact main bs (mapSummarize_length _ _ _ _ blocks bs hs) hm

/-- C1 witness: one block of 23 characters, budget 10; the trim pass keeps
9 characters, within the bound 10 + 1. -/
theorem budget_conservation_witness :
    (([(("A" : String), ("hello\n…\n" : String))].map
        (fun b => b.2.length)).sum ≤
      10 + [(("A" : String), ("hello world hello world" : String))].length ∧
    [(("A" : String), ("hello\n…\n" : String))].length =
      [(("A" : String), ("hello world hello world" : String))].length) :=
  budget_conservation [("A", "hello world hello world")] failingGemini false
    3000 10 "" "" [("A", "hello\n…\n")] (by decide) (by rfl)

/-- C2 (amended): if the summarization capability fails on every call —
and the per-source cap and the per-block trim width are at least the
2-character floor below which `textwrap.shorten` itself raises (amply true
under the default configuration: cap 3000, floor 500, default external
budget 20000) — the Budget Allocator recovers every block locally by the
deterministic truncation of its raw text to the per-source limit followed
by the final trim, aborts nothing, and returns budget-respecting text for
every input block that is non-empty whenever the raw text contains a
non-whitespace character. -/
theorem graceful_degradation (blocks : List (String × String))
    (gemini : String → Option String) (cap budget : Nat)
    (tsum tinstr : String) (hg : ∀ s, gemini s = none) (hcap : 2 ≤ cap)
    (hbud : 2 ≤ budget / blocks.length) :
    budgetPhase blocks gemini true cap budget tsum tinstr =
      some (blocks.map (fun b =>
        (b.1,
          shortenD (shortenD b.2 (min (max (budget / blocks.length) 500) cap))
            (max (budget / blocks.length) 1)))) ∧
    ∀ b ∈ blocks,
      (shortenD (shortenD b.2 (min (max (budget / blocks.length) 500) cap))
          (max (budget / blocks.length) 1)).length ≤
        max (budget / blocks.length) 1 ∧
      ((∃ c ∈ b.2.data, isPyWs c = false) →
        shortenD (shortenD b.2 (min (max (budget / blocks.length) 500) cap))
            (max (budget / blocks.length) 1) ≠ "") := by
  have hne : blocks ≠ [] := by
    intro h
    rw [h] at hbud
    simp at hbud
  have hE : blocks.isEmpty = false := by
    cases blocks with
    | nil => exact absurd rfl hne
    | cons b rest => rfl
  have hlim : 2 ≤ min (max (budget / blocks.length) 500) cap := by
    refine le_min ?_ hcap
    calc (2 : Nat) ≤ 500 := by omega
      _ ≤ max (budget / blocks.length) 500 := le_max_right _ _
  have hper : 2 ≤ max (budget / blocks.length) 1 :=
    le_trans hbud (le_max_left _ _)
  constructor
  · unfold budgetPhase
    rw [hE]
    simp only [Bool.false_eq_true, if_false, if_true]
    rw [mapSummarize_allFail gemini hg _ hlim tsum tinstr blocks]
    dsimp only
    rw [List.length_map, mapTrim_closed _ hper _]
    simp [List.map_map, Function.comp]
  · intro b _hb
    refine ⟨shortenD_length _ _ hper, fun hc => ?_⟩
    exact shortenD_ne_empty _ _ hper (shortenD_nonWs _ _ hlim hc)

/-- C2 witness: one block of raw text `"hello world"`, default cap 3000,
budget 6000, capability failing on every call: the block survives intact
(both truncation widths exceed its length), non-empty and within budget. -/
theorem graceful_degradation_witness :
    budgetPhase [("L", "hello world")] failingGemini true 3000 6000 "" "" =
      some [("L", "hello world")] ∧
    ("hello world" : String).length ≤ 6000 := by
  have h := graceful_degradation [("L", "hello world")] failingGemini 3000 6000
    "" "" (fun _ => rfl) (by decide) (by decide)
  exact ⟨h.1, (h.2 ("L", "hello world") (by simp)).1⟩

/-!
Supporting lemmas for the Repository Snippet Loader.
-/

theorem mem_dictInsert (acc : List (String × String)) (k v : String)
    (pv : String × String) (h : pv ∈ dictInsert acc k v) :
    pv ∈ acc ∨ pv = (k, v) := by
  unfold dictInsert at h
  by_cases hk : acc.any (fun kv => kv.1 == k) = true
  · rw [if_pos hk] at h
    obtain ⟨x, hx, hfx⟩ := List.mem_map.mp h
    by_cases hxk : x.1 == k
    · right
      rw [if_pos hxk] at hfx
      exact hfx.symm
    · left
      rw [if_neg hxk] at hfx
      exact hfx ▸ hx
  · rw [if_neg hk] at h
    rcases List.mem_append.mp h with h | h
    · exact Or.inl h
    · exact Or.inr (List.mem_singleton.mp h)

theorem key_dictInsert (acc : List (String × String)) (k v : String)
    (p : String) :
    (∃ w, (p, w) ∈ dictInsert acc k v) ↔ (∃ w, (p, w) ∈ acc) ∨ p = k := by
  constructor
  · rintro ⟨w, hw⟩
    rcases mem_dictInsert acc k v (p, w) hw with h | h
    · exact Or.inl ⟨w, h⟩
    · exact Or.inr (congrArg Prod.fst h)
  · intro h
    unfold dictInsert
    by_cases hk : acc.any (fun kv => kv.1 == k) = true
    · rw [if_pos hk]
      rcases h with ⟨w, hw⟩ | rfl
      · by_cases hpk : p = k
        · subst hpk
          refine ⟨v, List.mem_map.mpr ⟨(p, w), hw, ?_⟩⟩
          simp
        · refine ⟨w, List.mem_map.mpr ⟨(p, w), hw, ?_⟩⟩
          have : ((p, w).1 == k) = false := by
            simp only [beq_eq_false_iff_ne, ne_eq]
            exact hpk
          rw [if_neg (by simp [this])]
      · obtain ⟨x, hx, hxk⟩ := List.any_eq_true.mp hk
        refine ⟨v, List.mem_map.mpr ⟨x, hx, ?_⟩⟩
        rw [if_pos hxk]
    · rw [if_neg hk]
      rcases h with ⟨w, hw⟩ | rfl
      · exact ⟨w, List.mem_append.mpr (Or.inl hw)⟩
      · exact ⟨v, List.mem_append.mpr (Or.inr (List.mem_singleton.mpr rfl))⟩

theorem gatherFilesGo_values (fs : List (String × String)) (per : Nat) :
    ∀ (hs : List String) (acc m : List (String × String)),
      (∀ pv ∈ acc, ∃ c, List.lookup pv.1 fs = some c ∧
        pyShorten c per = some pv.2) →
      gatherFilesGo fs per hs acc = some m →
      ∀ pv ∈ m, ∃ c, List.lookup pv.1 fs = some c ∧
        pyShorten c per = some pv.2 := by
  intro hs
  induction hs with
  | nil =>
    intro acc m hinv hm
    have : acc = m := Option.some.inj hm
    exact this ▸ hinv
  | cons rel rest ih =>
    intro acc m hinv hm
    simp only [gatherFilesGo] at hm
    rcases hl : List.lookup rel fs with _ | content
    · rw [hl] at hm
      exact ih acc m hinv hm
    · rw [hl] at hm
      dsimp only at hm
      rcases hsh : pyShorten content per with _ | t
      · rw [hsh] at hm
        exact absurd hm (by simp)
      · rw [hsh] at hm
        refine ih (dictInsert acc rel t) m ?_ hm
        intro pv hpv
        rcases mem_dictInsert acc rel t pv hpv with h | rfl
        · exact hinv pv h
        · exact ⟨content, hl, hsh⟩

theorem gatherFilesGo_keys (fs : List (String × String)) (per : Nat) :
    ∀ (hs : List String) (acc m : List (String × String)),
      gatherFilesGo fs per hs acc = some m →
      ∀ p, (∃ w, (p, w) ∈ m) ↔
        ((∃ w, (p, w) ∈ acc) ∨
          (p ∈ hs ∧ ∃ c, List.lookup p fs = some c)) := by
  intro hs
  induction hs with
  | nil =>
    intro acc m hm p
    have : acc = m := Option.some.inj hm
    subst this
    simp
  | cons rel rest ih =>
    intro acc m hm p
    simp only [gatherFilesGo] at hm
    rcases hl : List.lookup rel fs with _ | content
    · rw [hl] at hm
      dsimp only at hm
      rw [ih acc m hm p]
      constructor
      · rintro (h | ⟨hmem, hc⟩)
        · exact Or.inl h
        · exact Or.inr ⟨List.mem_cons_of_mem rel hmem, hc⟩
      · rintro (h | ⟨hmem, hc⟩)
        · exact Or.inl h
        · rcases List.mem_cons.mp hmem with rfl | hmem
          · obtain ⟨c, hcc⟩ := hc
            rw [hl] at hcc
            cases hcc
          · exact Or.inr ⟨hmem, hc⟩
    · rw [hl] at hm
      dsimp only at hm
      rcases hsh : pyShorten content per with _ | t
      · rw [hsh] at hm
        exact absurd hm (by simp)
      · rw [hsh] at hm
        rw [ih (dictInsert acc rel t) m hm p, key_dictInsert acc rel t p]
        constructor
        · rintro ((h | rfl) | ⟨hmem, hc⟩)
          · exact Or.inl h
          · exact Or.inr ⟨List.mem_cons_self p rest, content, hl⟩
          · exact Or.inr ⟨List.mem_cons_of_mem rel hmem, hc⟩
        · rintro (h | ⟨hmem, hc⟩)
          · exact Or.inl (Or.inl h)
          · rcases List.mem_cons.mp hmem with rfl | hmem
            · exact Or.inl (Or.inr rfl)
            · exact Or.inr ⟨hmem, hc⟩

/-- C6 (amended): whenever the Repository Snippet Loader returns (no
truncation `ValueError`), the mapping keys are exactly the hinted paths
that exist in the checkout (missing paths are skipped without error), and
every stored value is the content truncated to the per-file share
`max(budget // max(len(hinted), 1), 1)` — the divisor is the total number
of hinted paths, duplicates included, not the number of distinct paths. -/
theorem snippet_loader_contract (fs : List (String × String))
    (hinted : List String) (budget : Nat) (m : List (String × String))
    (hm : gather_candidate_files fs hinted budget = some m) :
    (∀ p : String,
      (∃ w, (p, w) ∈ m) ↔ (p ∈ hinted ∧ ∃ c, List.lookup p fs = some c)) ∧
    ∀ pv ∈ m, ∃ c, List.lookup pv.1 fs = some c ∧
      pyShorten c (max (budget / max hinted.length 1) 1) = some pv.2 := by
  unfold gather_candidate_files at hm
  constructor
  · intro p
    rw [gatherFilesGo_keys fs _ hinted [] m hm p]
    simp
  · exact gatherFilesGo_values fs _ hinted [] m (by simp) hm

/-- C6 witness: one existing and one missing hinted path under the default
budget; the returned mapping holds exactly the existing path, truncated to
the 3000-character share. -/
theorem snippet_loader_contract_witness :
    (∀ p : String,
      (∃ w, (p, w) ∈ [(("a.py" : String), ("hello" : String))]) ↔
        (p ∈ ["a.py", "missing.py"] ∧
          ∃ c, List.lookup p [(("a.py" : String), ("hello" : String))] = some c)) ∧
    ∀ pv ∈ [(("a.py" : String), ("hello" : String))],
      ∃ c, List.lookup pv.1 [(("a.py" : String), ("hello" : String))] = some c ∧
        pyShorten c (max (6000 / max (["a.py", "missing.py"] : List String).length 1) 1) =
          some pv.2 :=
  snippet_loader_contract [("a.py", "hello")] ["a.py", "missing.py"] 6000
    [("a.py", "hello")] (by rfl)

theorem pyShorten_none_of_lt (s : String) (width : Nat) (h : width < 2) :
    pyShorten s width = none := by
  unfold pyShorten pyShortenL
  rw [if_pos h]
  rfl

/-- A text that is already whitespace-normalized (equal to the single-space
join of its whitespace-separated words) and fits in the width passes
through `textwrap.shorten` unchanged. -/
theorem pyShorten_of_normalized_fit (s : String) (width : Nat)
    (hw : 2 ≤ width) (hnorm : joinWords (pyWords s.data) = s.data)
    (hfit : s.length ≤ width) : pyShorten s width = some s := by
  unfold pyShorten pyShortenL
  rw [if_neg (by omega)]
  have hfit' : s.data.length ≤ width := hfit
  simp only [hnorm]
  rw [if_pos hfit']
  rfl

/-- C7 (amended): a hinted file that exists, whose content is already
whitespace-normalized and fits the per-file share, is stored byte-for-byte
unchanged; in general the loader stores the whitespace-collapsed content
when that fits the share, and otherwise a truncation that keeps a word
prefix and appends the placeholder (the suffix is not preserved, and
whitespace runs are collapsed even without truncation). -/
theorem snippet_untouched_when_normalized (fs : List (String × String))
    (hinted : List String) (budget : Nat) (m : List (String × String))
    (hm : gather_candidate_files fs hinted budget = some m)
    (pv : String × String) (hpv : pv ∈ m) (c : String)
    (hc : List.lookup pv.1 fs = some c)
    (hnorm : joinWords (pyWords c.data) = c.data)
    (hfit : c.length ≤ max (budget / max hinted.length 1) 1) :
    pv.2 = c := by
  unfold gather_candidate_files at hm
  obtain ⟨c0, hc0, hshort⟩ :=
    gatherFilesGo_values fs _ hinted [] m (by simp) hm pv hpv
  rw [hc] at hc0
  have hcc : c = c0 := Option.some.inj hc0
  subst hcc
  by_cases hw : 2 ≤ max (budget / max hinted.length 1) 1
  · rw [pyShorten_of_normalized_fit c _ hw hnorm hfit] at hshort
    exact (Option.some.inj hshort).symm
  · rw [pyShorten_none_of_lt c _ (by omega)] at hshort
    cases hshort

/-- C7 witness: content `"hello"` (already normalized, fits the
6000-character share) is stored unchanged. -/
theorem snippet_untouched_witness : ("hello" : String) = "hello" :=
  snippet_untouched_when_normalized [("a.py", "hello")] ["a.py"] 6000
    [("a.py", "hello")] (by rfl) ("a.py", "hello") (by simp) "hello"
    (by rfl) (by decide) (by decide)

/-!
Supporting lemmas for the External Reference Resolver.
-/

/-- The `i`-th URL of a kind (0-based) contributes the contiguous segment
produced by the resolver at 1-based index `1 + i`. -/
theorem fetchLoop_get (f : Nat → String → List (String × String)) :
    ∀ (urls : List String) (start i : Nat) (u : String),
      urls.get? i = some u →
      ∃ pre post, fetchLoop f start urls = pre ++ f (start + i) u ++ post := by
  intro urls
  induction urls with
  | nil => intro start i u h; simp at h
  | cons x xs ih =>
    intro start i u h
    cases i with
    | zero =>
      have hx : x = u := by simpa using h
      subst hx
      exact ⟨[], fetchLoop f (start + 1) xs, by simp [fetchLoop]⟩
    | succ j =>
      have hj : xs.get? j = some u := by simpa using h
      obtain ⟨pre, post, hp⟩ := ih (start + 1) j u hj
      refine ⟨f start x ++ pre, post, ?_⟩
      have harith : start + 1 + j = start + (j + 1) := by omega
      simp only [fetchLoop, hp, harith, List.append_assoc]

/-- C4 (amended): for the three kinds the Resolver actually fetches —
documentation, code-review (only when a GitHub client is present), and
generic — each classified URL contributes a contiguous per-reference
segment of blocks at its 1-based index; a fetch failure contributes
exactly one block whose label carries the ERROR marker and whose text is
`Failed to fetch <url>: <error>`, and a fetch success contributes at least
one block (for code review: one per returned section, never none since the
fetcher always emits the header section) — so no single failure aborts the
phase.  URLs of the issueReference and commitReference kinds contribute no
blocks at all. -/
theorem resolver_error_blocks
    (confl : String → Except String (String × String))
    (pr : String → Except String (List (String × String)))
    (web : String → Except String (String × String))
    (ghPresent : Bool) (ctx : TicketContext) :
    (∀ i u, ctx.confluence_urls.get? i = some u →
      ∃ pre post, fetchPhase confl pr web ghPresent ctx =
        pre ++ resolveConfluence confl (1 + i) u ++ post) ∧
    (∀ u e, confl u = .error e → ∀ i,
      resolveConfluence confl i u = [(conflErrLabel i, fetchFailText u e)]) ∧
    (∀ u tt, confl u = .ok tt → ∀ i, resolveConfluence confl i u ≠ []) ∧
    (ghPresent = true → ∀ i u, ctx.github_pr_urls.get? i = some u →
      ∃ pre post, fetchPhase confl pr web ghPresent ctx =
        pre ++ resolvePr pr (1 + i) u ++ post) ∧
    (∀ u e, pr u = .error e → ∀ i,
      resolvePr pr i u = [(prErrLabel i, fetchFailText u e)]) ∧
    (∀ u secs, pr u = .ok secs → secs ≠ [] → ∀ i, resolvePr pr i u ≠ []) ∧
    (∀ i u, ctx.generic_urls.get? i = some u →
      ∃ pre post, fetchPhase confl pr web ghPresent ctx =
        pre ++ resolveWeb web (1 + i) u ++ post) ∧
    (∀ u e, web u = .error e → ∀ i,
      resolveWeb web i u = [(webErrLabel i, fetchFailText u e)]) ∧
    (∀ u tt, web u = .ok tt → ∀ i, resolveWeb web i u ≠ []) := by
  refine ⟨?_, ?_, ?_, ?_, ?_, ?_, ?_, ?_, ?_⟩
  · intro i u h
    obtain ⟨pre, post, hp⟩ :=
      fetchLoop_get (resolveConfluence confl) ctx.confluence_urls 1 i u h
    refine ⟨pre, post ++
      ((if ghPresent then fetchLoop (resolvePr pr) 1 ctx.github_pr_urls else []) ++
        fetchLoop (resolveWeb web) 1 ctx.generic_urls), ?_⟩
    simp [fetchPhase, hp, List.append_assoc]
  · intro u e he i
    simp [resolveConfluence, he]
  · intro u tt ht i
    simp [resolveConfluence, ht]
  · intro hg i u h
    obtain ⟨pre, post, hp⟩ :=
      fetchLoop_get (resolvePr pr) ctx.github_pr_urls 1 i u h
    refine ⟨fetchLoop (resolveConfluence confl) 1 ctx.confluence_urls ++ pre,
      post ++ fetchLoop (resolveWeb web) 1 ctx.generic_urls, ?_⟩
    simp [fetchPhase, hg, hp, List.append_assoc]
  · intro u e he i
    simp [resolvePr, he]
  · intro u secs hs hne i
    simp [resolvePr, hs, hne]
  · intro i u h
    obtain ⟨pre, post, hp⟩ :=
      fetchLoop_get (resolveWeb web) ctx.generic_urls 1 i u h
    refine ⟨fetchLoop (resolveConfluence confl) 1 ctx.confluence_urls ++
      ((if ghPresent then fetchLoop (resolvePr pr) 1 ctx.github_pr_urls else []) ++
        pre), post, ?_⟩
    simp [fetchPhase, hp, List.append_assoc]
  · intro u e he i
    simp [resolveWeb, he]
  · intro u tt ht i
    simp [resolveWeb, ht]

/-- A context holding one URL of each fetched kind (as the classification
loop would produce for three suitable URLs). -/
def ctxOneEach : TicketContext :=
  { description := "", file_paths := [],
    confluence_urls := ["https://confluence.example.com/pages/1"],
    github_pr_urls := ["https://github.com/acme/widgets/pull/42"],
    github_issue_urls := [], github_commit_urls := [],
    generic_urls := ["https://plain.example.com/x"], instructions := "" }

/-- C4 witness: with every fetcher failing, the documentation reference at
index 1 contributes its single error block inside the phase output. -/
theorem resolver_error_blocks_witness :
    (∃ pre post, fetchPhase downConfl downPr downWeb true ctxOneEach =
      pre ++ resolveConfluence downConfl (1 + 0)
        "https://confluence.example.com/pages/1" ++ post) ∧
    resolveConfluence downConfl 1 "https://confluence.example.com/pages/1" =
      [(conflErrLabel 1,
        fetchFailText "https://confluence.example.com/pages/1" "boom")] := by
  have h := resolver_error_blocks downConfl downPr downWeb true ctxOneEach
  exact ⟨h.1 0 "https://confluence.example.com/pages/1" rfl,
    h.2.1 "https://confluence.example.com/pages/1" "boom" rfl 1⟩

/-- C4 (counterexample): a URL classified as an issue reference produces no
block at all — `fetchPhase` never touches `github_issue_urls` (nor
`github_commit_urls`), so the contract "every classified URL of every kind
produces one or more blocks" fails for those kinds. -/
theorem issue_reference_produces_no_block_cex :
    (TicketContext.ofDescription
        (some "See https://github.com/acme/widgets/issues/7")).github_issue_urls =
      ["https://github.com/acme/widgets/issues/7"] ∧
    fetchPhase downConfl downPr downWeb true
      (TicketContext.ofDescription
        (some "See https://github.com/acme/widgets/issues/7")) = [] := by
  refine ⟨by decide, by rfl⟩

/-!
Supporting lemmas for the Response Parser: behavior of `pyStripL` under
whitespace padding and around fence markers.
-/

theorem dropWhile_ws_append (a l : List Char)
    (ha : ∀ c ∈ a, isPyWs c = true) :
    (a ++ l).dropWhile isPyWs = l.dropWhile isPyWs := by
  induction a with
  | nil => rfl
  | cons c cs ih =>
    have hc : isPyWs c = true := ha c (by simp)
    simp only [List.cons_append, List.dropWhile_cons, hc, if_true]
    exact ih (fun d hd => ha d (by simp [hd]))

theorem dropWhile_head_false (p : Char → Bool) :
    ∀ (l : List Char) (c : Char) (y : List Char),
      l.dropWhile p = c :: y → p c = false := by
  intro l
  induction l with
  | nil => intro c y h; simp at h
  | cons d ds ih =>
    intro c y h
    rw [List.dropWhile_cons] at h
    by_cases hd : p d = true
    · rw [if_pos hd] at h
      exact ih c y h
    · rw [if_neg hd] at h
      cases h
      exact Bool.not_eq_true _ ▸ (by simpa using hd)

theorem dropWhile_append_of_cons (p : Char → Bool) :
    ∀ (l b : List Char) (c : Char) (y : List Char),
      l.dropWhile p = c :: y → (l ++ b).dropWhile p = c :: (y ++ b) := by
  intro l
  induction l with
  | nil => intro b c y h; simp at h
  | cons d ds ih =>
    intro b c y h
    rw [List.dropWhile_cons] at h
    rw [List.cons_append, List.dropWhile_cons]
    by_cases hd : p d = true
    · rw [if_pos hd] at h
      rw [if_pos hd]
      exact ih b c y h
    · rw [if_neg hd] at h
      rw [if_neg hd]
      cases h
      rfl

theorem pyStripL_ws_left (a l : List Char) (ha : ∀ c ∈ a, isPyWs c = true) :
    pyStripL (a ++ l) = pyStripL l := by
  unfold pyStripL
  rw [dropWhile_ws_append a l ha]

theorem pyStripL_ws_right (l b : List Char) (hb : ∀ c ∈ b, isPyWs c = true) :
    pyStripL (l ++ b) = pyStripL l := by
  unfold pyStripL
  rcases h : l.dropWhile isPyWs with _ | ⟨c, y⟩
  · have hl : ∀ c ∈ l, isPyWs c = true := List.dropWhile_eq_nil_iff.mp h
    have h1 : (l ++ b).dropWhile isPyWs = [] := by
      rw [dropWhile_ws_append l b hl]
      exact List.dropWhile_eq_nil_iff.mpr hb
    rw [h1]
  · rw [dropWhile_append_of_cons isPyWs l b c y h]
    have h2 : ((c :: (y ++ b)).reverse).dropWhile isPyWs =
        ((c :: y).reverse).dropWhile isPyWs := by
      have e : (c :: (y ++ b)).reverse = b.reverse ++ (c :: y).reverse := by
        simp
      rw [e, dropWhile_ws_append b.reverse ((c :: y).reverse)
        (fun d hd => hb d (List.mem_reverse.mp hd))]
    rw [h2]

theorem pyStripL_pad (a l b : List Char) (ha : ∀ c ∈ a, isPyWs c = true)
    (hb : ∀ c ∈ b, isPyWs c = true) :
    pyStripL (a ++ l ++ b) = pyStripL l := by
  rw [pyStripL_ws_right (a ++ l) b hb, pyStripL_ws_left a l ha]

theorem pyStripL_decomp (l : List Char) :
    ∃ a b, (∀ c ∈ a, isPyWs c = true) ∧ (∀ c ∈ b, isPyWs c = true) ∧
      l = a ++ pyStripL l ++ b := by
  refine ⟨l.takeWhile isPyWs,
    ((l.dropWhile isPyWs).reverse.takeWhile isPyWs).reverse, ?_, ?_, ?_⟩
  · intro c hc
    exact List.mem_takeWhile_imp hc
  · intro c hc
    exact List.mem_takeWhile_imp (List.mem_reverse.mp hc)
  · conv_lhs => rw [← List.takeWhile_append_dropWhile isPyWs l]
    rw [List.append_assoc]
    congr 1
    conv_lhs => rw [← List.reverse_reverse (l.dropWhile isPyWs),
      ← List.takeWhile_append_dropWhile isPyWs (l.dropWhile isPyWs).reverse]
    rw [List.reverse_append]
    rfl

theorem pyStripL_idem (l : List Char) :
    pyStripL (pyStripL l) = pyStripL l := by
  obtain ⟨a, b, ha, hb, hd⟩ := pyStripL_decomp l
  calc pyStripL (pyStripL l)
      = pyStripL (a ++ pyStripL l ++ b) := (pyStripL_pad a _ b ha hb).symm
    _ = pyStripL l := by rw [← hd]

theorem pyStripL_nonws_ends (c d : Char) (m : List Char)
    (hc : isPyWs c = false) (hd : isPyWs d = false) :
    pyStripL (c :: (m ++ [d])) = c :: (m ++ [d]) := by
  unfold pyStripL
  have h1 : (c :: (m ++ [d])).dropWhile isPyWs = c :: (m ++ [d]) := by
    rw [List.dropWhile_cons, if_neg (by simp [hc])]
  rw [h1]
  have h2 : (c :: (m ++ [d])).reverse = d :: (m.reverse ++ [c]) := by simp
  rw [h2]
  have h3 : (d :: (m.reverse ++ [c])).dropWhile isPyWs =
      d :: (m.reverse ++ [c]) := by
    rw [List.dropWhile_cons, if_neg (by simp [hd])]
  rw [h3, ← h2, List.reverse_reverse]

/-- Processing shared by both fence variants once the opening marker is
stripped: the remainder `'\n' :: doc ++ "\n```"` ends with the closing
marker, and removing it and stripping yields the stripped document. -/
theorem cleanReply_after_open (doc : String) :
    pyStripL (stripCloseFence ('\n' :: (doc.data ++ "\n```".data))) =
      pyStripL doc.data := by
  have hshape : '\n' :: (doc.data ++ "\n```".data) =
      ('\n' :: (doc.data ++ ['\n'])) ++ "```".data := by
    have e : "\n```".data = '\n' :: "```".data := rfl
    rw [e]
    simp
  unfold stripCloseFence
  rw [hshape]
  have hsuf : ("```".data).isSuffixOf
      (('\n' :: (doc.data ++ ['\n'])) ++ "```".data) = true :=
    List.isSuffixOf_iff_suffix.mpr ⟨_, rfl⟩
  rw [if_pos hsuf]
  have hlen : ((('\n' :: (doc.data ++ ['\n'])) ++ "```".data).length - 3) =
      ('\n' :: (doc.data ++ ['\n'])).length := by
    simp
  rw [hlen, List.take_left]
  have hpad : '\n' :: (doc.data ++ ['\n']) = ['\n'] ++ doc.data ++ ['\n'] := by
    simp
  rw [hpad, pyStripL_pad ['\n'] doc.data ['\n'] (by decide) (by decide)]

/-- Cleaning a reply wrapped in a fenced block with the `json` language
tag (and arbitrary surrounding whitespace) yields the stripped document. -/
theorem cleanReply_fenced_json (doc ws1 ws2 : String)
    (hws1 : ∀ c ∈ ws1.data, isPyWs c = true)
    (hws2 : ∀ c ∈ ws2.data, isPyWs c = true) :
    cleanReply (ws1 ++ "```json\n" ++ doc ++ "\n```" ++ ws2) =
      String.mk (pyStripL doc.data) := by
  have hdata : (ws1 ++ "```json\n" ++ doc ++ "\n```" ++ ws2).data =
      ws1.data ++ ("```json\n".data ++ doc.data ++ "\n```".data) ++ ws2.data := by
    simp [String.data_append, List.append_assoc]
  have hF : pyStripL ("```json\n".data ++ doc.data ++ "\n```".data) =
      "```json\n".data ++ doc.data ++ "\n```".data := by
    have hshape : "```json\n".data ++ doc.data ++ "\n```".data =
        '`' :: (("``json\n".data ++ doc.data ++ "\n``".data) ++ ['`']) := by
      have e1 : "```json\n".data = '`' :: "``json\n".data := rfl
      have e2 : "\n```".data = "\n``".data ++ ['`'] := rfl
      rw [e1, e2]
      simp [List.append_assoc]
    rw [hshape]
    exact pyStripL_nonws_ends '`' '`' _ (by decide) (by decide)
  have hsplit : "```json\n".data ++ doc.data ++ "\n```".data =
      "```json".data ++ ('\n' :: (doc.data ++ "\n```".data)) := by
    have e : "```json\n".data = "```json".data ++ ['\n'] := rfl
    rw [e]
    simp [List.append_assoc]
  have hopen : stripOpenFence ("```json\n".data ++ doc.data ++ "\n```".data) =
      '\n' :: (doc.data ++ "\n```".data) := by
    unfold stripOpenFence
    rw [hsplit]
    have hpre : ("```json".data).isPrefixOf
        ("```json".data ++ ('\n' :: (doc.data ++ "\n```".data))) = true :=
      List.isPrefixOf_iff_prefix.mpr ⟨_, rfl⟩
    rw [if_pos hpre]
    have h7 : (7 : Nat) = ("```json".data).length := rfl
    rw [h7, List.drop_left]
  unfold cleanReply
  rw [hdata, pyStripL_pad _ _ _ hws1 hws2, hF, hopen, cleanReply_after_open doc]

/-- Cleaning a reply wrapped in a bare fenced block (no language tag, with
arbitrary surrounding whitespace) yields the stripped document. -/
theorem cleanReply_fenced_bare (doc ws1 ws2 : String)
    (hws1 : ∀ c ∈ ws1.data, isPyWs c = true)
    (hws2 : ∀ c ∈ ws2.data, isPyWs c = true) :
    cleanReply (ws1 ++ "```\n" ++ doc ++ "\n```" ++ ws2) =
      String.mk (pyStripL doc.data) := by
  have hdata : (ws1 ++ "```\n" ++ doc ++ "\n```" ++ ws2).data =
      ws1.data ++ ("```\n".data ++ doc.data ++ "\n```".data) ++ ws2.data := by
    simp [String.data_append, List.append_assoc]
  have hF : pyStripL ("```\n".data ++ doc.data ++ "\n```".data) =
      "```\n".data ++ doc.data ++ "\n```".data := by
    have hshape : "```\n".data ++ doc.data ++ "\n```".data =
        '`' :: (("``\n".data ++ doc.data ++ "\n``".data) ++ ['`']) := by
      have e1 : "```\n".data = '`' :: "``\n".data := rfl
      have e2 : "\n```".data = "\n``".data ++ ['`'] := rfl
      rw [e1, e2]
      simp [List.append_assoc]
    rw [hshape]
    exact pyStripL_nonws_ends '`' '`' _ (by decide) (by decide)
  have hsplit : "```\n".data ++ doc.data ++ "\n```".data =
      "```".data ++ ('\n' :: (doc.data ++ "\n```".data)) := by
    have e : "```\n".data = "```".data ++ ['\n'] := rfl
    rw [e]
    simp [List.append_assoc]
  have hopen : stripOpenFence ("```\n".data ++ doc.data ++ "\n```".data) =
      '\n' :: (doc.data ++ "\n```".data) := by
    unfold stripOpenFence
    rw [hsplit]
    have hpre : ("```json".data).isPrefixOf
        ("```".data ++ ('\n' :: (doc.data ++ "\n```".data))) = false := rfl
    rw [hpre]
    have hpre3 : ("```".data).isPrefixOf
        ("```".data ++ ('\n' :: (doc.data ++ "\n```".data))) = true :=
      List.isPrefixOf_iff_prefix.mpr ⟨_, rfl⟩
    rw [if_pos hpre3]
    simp only [Bool.false_eq_true, if_false]
    have h3 : (3 : Nat) = ("```".data).length := rfl
    rw [h3, List.drop_left]
  unfold cleanReply
  rw [hdata, pyStripL_pad _ _ _ hws1 hws2, hF, hopen, cleanReply_after_open doc]

/-- Cleaning an unwrapped reply whose stripped form neither starts nor
ends with a fence marker yields the stripped document. -/
theorem cleanReply_unfenced (doc : String)
    (hpre : ("```".data).isPrefixOf (pyStripL doc.data) = false)
    (hsuf : ("```".data).isSuffixOf (pyStripL doc.data) = false) :
    cleanReply doc = String.mk (pyStripL doc.data) := by
  have hpj : ("```json".data).isPrefixOf (pyStripL doc.data) = false := by
    by_contra h
    have hj : ("```json".data).isPrefixOf (pyStripL doc.data) = true := by
      revert h
      cases ("```json".data).isPrefixOf (pyStripL doc.data) <;> simp
    have h1 : "```json".data <+: pyStripL doc.data :=
      List.isPrefixOf_iff_prefix.mp hj
    have h2 : "```".data <+: "```json".data := ⟨"json".data, by decide⟩
    have h3 : "```".data <+: pyStripL doc.data := h2.trans h1
    rw [List.isPrefixOf_iff_prefix.mpr h3] at hpre
    cases hpre
  unfold cleanReply stripOpenFence stripCloseFence
  rw [hpj, hpre]
  simp only [Bool.false_eq_true, if_false]
  rw [hsuf]
  simp only [Bool.false_eq_true, if_false]
  rw [pyStripL_idem]

/-- C8: wrapping a structured document in a fenced-code block — with or
without the `json` language tag, with arbitrary surrounding whitespace —
feeds the Response Parser the same cleaned text as the unwrapped document
and therefore yields the same patch sequence.  Stated for every document
whose stripped text does not itself begin or end with a fence marker,
which holds for every valid JSON document (those begin with a brace and
end with a brace after stripping).  The scenario conjunct: the reply that
is an empty-patches object inside a ```json fence parses to the empty
patch sequence without error. -/
theorem fence_stripping_round_trip (doc ws1 ws2 : String)
    (hws1 : ∀ c ∈ ws1.data, isPyWs c = true)
    (hws2 : ∀ c ∈ ws2.data, isPyWs c = true)
    (hpre : ("```".data).isPrefixOf (pyStripL doc.data) = false)
    (hsuf : ("```".data).isSuffixOf (pyStripL doc.data) = false) :
    parse_model_reply (ws1 ++ "```json\n" ++ doc ++ "\n```" ++ ws2) =
      parse_model_reply doc ∧
    parse_model_reply (ws1 ++ "```\n" ++ doc ++ "\n```" ++ ws2) =
      parse_model_reply doc ∧
    parse_model_reply "```json\n\x7b\"patches\":[]\x7d\n```" = Except.ok [] := by
  have h1 := cleanReply_fenced_json doc ws1 ws2 hws1 hws2
  have h2 := cleanReply_fenced_bare doc ws1 ws2 hws1 hws2
  have h3 := cleanReply_unfenced doc hpre hsuf
  refine ⟨?_, ?_, ?_⟩
  · unfold parse_model_reply
    rw [h1, h3]
  · unfold parse_model_reply
    rw [h2, h3]
  · rfl

/-- C8 witness: the round trip evaluated on the concrete document
holding one empty patches field, one space of leading and one newline of
trailing whitespace. -/
theorem fence_stripping_round_trip_witness :
    (parse_model_reply
        (" " ++ "```json\n" ++ "\x7b\"patches\": []\x7d" ++ "\n```" ++ "\n") =
      parse_model_reply "\x7b\"patches\": []\x7d") ∧
    (parse_model_reply
        (" " ++ "```\n" ++ "\x7b\"patches\": []\x7d" ++ "\n```" ++ "\n") =
      parse_model_reply "\x7b\"patches\": []\x7d") ∧
    parse_model_reply "```json\n\x7b\"patches\":[]\x7d\n```" = Except.ok [] :=
  fence_stripping_round_trip "\x7b\"patches\": []\x7d" " " "\n"
    (by decide) (by decide) (by decide) (by decide)

end PRGen













